import Mathlib

/-!
Verification development for `eot.py`, a script that fetches daily apparent
solar time from the JPL Horizons API, converts it to equation-of-time values
in minutes, pads each year's sequence with one value borrowed from each
neighbouring year, and serializes the year-keyed table as JSON.

The script is embedded shallowly: Python strings become `List Char`, the
`defaultdict(list)` becomes an insertion-ordered association list, machine
floats become `ℚ`, and each fatal runtime error (`ValueError`, `IndexError`,
`AssertionError`, `KeyError`) becomes an `Except Err` failure.  The network
fetch itself is outside the embedding; the pipeline is modelled from the
response text onwards (source lines 168-195).
-/

/-- Error taxonomy for the script's fatal aborts, following the spec's names:
`formatError` for a missing `$$SOE`/`$$EOE` sentinel (Python `ValueError` from
`lines.index`), `parseError` for a data row that fails to parse (Python
`IndexError`/`ValueError` inside the row loop), `consistencyError` for a failed
boundary-cardinality assertion or a missing/empty year during padding
(Python `AssertionError`/`IndexError`/`KeyError`). -/
inductive Err where
  | formatError
  | parseError
  | consistencyError
deriving DecidableEq, Repr

/-- A Python string, modelled as its list of characters. -/
abbrev Str := List Char

/-- Conversion from a Lean string literal to the `Str` model. -/
def str (s : String) : Str := s.data

/-- Characters treated as whitespace by Python `str.split()` with no
arguments (space, tab, newline, carriage return, vertical tab, form feed). -/
def isWS (c : Char) : Bool :=
  c = ' ' || c = '\t' || c = '\n' || c = '\r' || c = '\x0b' || c = '\x0c'

/-- Python `line.split()` with no separator: split on runs of whitespace,
discarding empty fields (source line 171, `a = line.split()`). -/
def splitWS (l : Str) : List Str :=
  (l.foldr (fun c acc =>
    if isWS c then [] :: acc
    else match acc with
      | [] => [[c]]
      | w :: ws => (c :: w) :: ws) []).filter (fun w => !w.isEmpty)

/-- Python `s.split(sep)` for a one-character separator: keeps empty fields,
and splitting the empty string yields one empty field (source lines 168 and
172, `response.text.split('\n')` and `a[0].split('-')`). -/
def splitOnChar (sep : Char) : Str → List Str
  | [] => [[]]
  | c :: cs =>
    match splitOnChar sep cs with
    | [] => if c = sep then [[], []] else [[c]]
    | w :: ws => if c = sep then [] :: w :: ws else (c :: w) :: ws

/-- Strip leading and trailing whitespace, as Python `int`/`float` do before
parsing a numeric literal. -/
def trimWS (l : Str) : Str :=
  ((l.dropWhile isWS).reverse.dropWhile isWS).reverse

/-- Numeric value of a list of decimal digit characters. -/
def digitsVal (l : Str) : Nat :=
  l.foldl (fun n c => 10 * n + (c.toNat - 48)) 0

/-- Model of Python `int(s)` on the decimal-literal fragment: optional
whitespace, optional sign, then one or more digits; anything else raises
`ValueError`, modelled as `none` (source line 172). -/
def pyInt (l : Str) : Option Int :=
  match trimWS l with
  | [] => none
  | c :: cs =>
    let neg : Bool := c = '-'
    let ds : Str := if c = '-' || c = '+' then cs else c :: cs
    if ds.isEmpty then none
    else if ds.all Char.isDigit then
      some (if neg then -(digitsVal ds : Int) else (digitsVal ds : Int))
    else none

/-- Apply a sign to a rational. -/
def applySign (neg : Bool) (q : ℚ) : ℚ := if neg then -q else q

/-- Model of Python `float(s)` on the plain decimal-literal fragment
(optional whitespace, optional sign, digits with at most one decimal point,
at least one digit); exponents and the special values are outside the
fragment the Horizons rows use.  Failure models `ValueError`
(source lines 173-175). -/
def pyFloat (l : Str) : Option ℚ :=
  match trimWS l with
  | [] => none
  | c :: cs =>
    let neg : Bool := c = '-'
    let core : Str := if c = '-' || c = '+' then cs else c :: cs
    match splitOnChar '.' core with
    | [ip] =>
      if ip.isEmpty then none
      else if ip.all Char.isDigit then some (applySign neg (digitsVal ip)) else none
    | [ip, fp] =>
      if ip.isEmpty && fp.isEmpty then none
      else if ip.all Char.isDigit && fp.all Char.isDigit then
        some (applySign neg ((digitsVal ip : ℚ) + (digitsVal fp : ℚ) / (10 ^ fp.length)))
      else none
    | _ => none

/-- Rounding to 2 decimal places, the idealized-decimal model of Python
`round(eot, 2)` (source line 177). -/
def round2 (q : ℚ) : ℚ := ((round (q * 100) : ℤ) : ℚ) / 100

/-- Python negative-capable list access `a[-k]` for `k ≥ 1`: valid only when
`k ≤ len(a)`, otherwise `IndexError` (`none`).  Source lines 173-175 read
`a[-1]`, `a[-2]`, `a[-3]`. -/
def pyNeg (a : List Str) (k : Nat) : Option Str :=
  if k ≤ a.length then a[a.length - k]? else none

/-- Parse one data row (source lines 171-177): split on whitespace, take the
integer before the first `-` of the first token as the year, parse the last
three tokens as hour, minute, second, and store
`round((h + (m + s/60)/60 - 12)*60, 2)`.  Any `IndexError` or `ValueError`
on the row aborts the run. -/
def parseRow (line : Str) : Except Err (Int × ℚ) :=
  match splitWS line with
  | [] => Except.error Err.parseError
  | t0 :: rest =>
    match pyInt ((splitOnChar '-' t0).headD []) with
    | none => Except.error Err.parseError
    | some year =>
      let a := t0 :: rest
      match (pyNeg a 1).bind pyFloat, (pyNeg a 2).bind pyFloat, (pyNeg a 3).bind pyFloat with
      | some s, some m, some h =>
        Except.ok (year, round2 ((h + (m + s / 60) / 60 - 12) * 60))
      | _, _, _ => Except.error Err.parseError

/-- Spec-side conversion formula, stated from the spec's words for the
refinement claims: "compute `eot = (hour + (minute + second/60)/60 - 12) * 60`,
rounded to 2 decimal places". -/
def eotSpecFormula (h m s : ℚ) : ℚ := round2 ((h + (m + s / 60) / 60 - 12) * 60)

/-- The `eots_of_year` table: a `defaultdict(list)` keyed by year, modelled as
an insertion-ordered association list. -/
abbrev Table := List (Int × List ℚ)

/-- Python dict lookup `d[k]` restricted to its value (first matching key;
keys are unique in a dict), returning `[]` for a missing key exactly as the
`defaultdict(list)` default does. -/
def dget (t : Table) (k : Int) : List ℚ :=
  match t with
  | [] => []
  | p :: rest => if p.1 = k then p.2 else dget rest k

/-- Python `k in d` on the table. -/
def hasKey (t : Table) (k : Int) : Bool :=
  match t with
  | [] => false
  | p :: rest => p.1 == k || hasKey rest k

/-- Python `d[k].append(v)` on a `defaultdict(list)`: extend the existing
entry, or create the key (at the end, insertion order) with `[v]`. -/
def dappend (t : Table) (k : Int) (v : ℚ) : Table :=
  match t with
  | [] => [(k, [v])]
  | p :: rest => if p.1 = k then (k, p.2 ++ [v]) :: rest else p :: dappend rest k v

/-- Reading `d[k]` on a `defaultdict(list)` inserts the key with `[]` when it
is missing (relevant on source lines 179, 180, 186 where mere access can
create a key). -/
def dtouch (t : Table) (k : Int) : Table :=
  match t with
  | [] => [(k, [])]
  | p :: rest => if p.1 = k then p :: rest else p :: dtouch rest k

/-- Grouping loop body (source lines 170-177): parse each data row in order
and run `eots_of_year[year].append(round(eot, 2))`; the first row that fails
to parse aborts the run. -/
def groupLoop (t : Table) : List Str → Except Err Table
  | [] => Except.ok t
  | line :: rest =>
    match parseRow line with
    | Except.error er => Except.error er
    | Except.ok yv => groupLoop (dappend t yv.1 yv.2) rest

/-- Grouping loop (source lines 169-177), started from the empty
`defaultdict(list)`. -/
def groupRows (rows : List Str) : Except Err Table :=
  groupLoop [] rows

/-- Boundary-cardinality assertions (source lines 179-180): each access
touches the key, then `assert len(eots_of_year[b]) == 1`. -/
def checkBoundaries (s e : Int) (t : Table) : Except Err Table :=
  let t1 := dtouch t (s - 1)
  let t2 := dtouch t1 (e + 1)
  if (dget t2 (s - 1)).length = 1 ∧ (dget t2 (e + 1)).length = 1 then Except.ok t2
  else Except.error Err.consistencyError

/-- Python `range(start, end+1)` as a list of integers. -/
def yearRange (s e : Int) : List Int :=
  (List.range (e + 1 - s).toNat).map (fun (i : Nat) => s + (i : Int))

/-- Side-table loop body (source line 186): for each year, reading
`eots_of_year[year]` touches the key, and `[0]`/`[-1]` on an empty list raise
`IndexError`, a fatal consistency failure. -/
def yearLoop (t : Table) : List Int → Except Err Table
  | [] => Except.ok t
  | y :: rest =>
    let t1 := dtouch t y
    if dget t1 y = [] then Except.error Err.consistencyError else yearLoop t1 rest

/-- Side-table loop (source lines 185-186): `e[year] =
(eots_of_year[year][0], eots_of_year[year][-1])` for each year of the range. -/
def checkYears (s e : Int) (t : Table) : Except Err Table :=
  yearLoop t (yearRange s e)

/-- Padding loop core (source lines 188-190) with the two side lookups
abstracted: for each key in `[s, e]`, prepend `eL (y-1)` (which models
`e[year-1][1]`) and append `eF (y+1)` (which models `e[year+1][0]`). -/
def padWith (s e : Int) (eL eF : Int → ℚ) (t : Table) : Table :=
  t.map (fun p =>
    if s ≤ p.1 ∧ p.1 ≤ e then (p.1, eL (p.1 - 1) :: (p.2 ++ [eF (p.1 + 1)])) else p)

/-- Padding (source lines 182-190): the side table `e` records, for each year,
the first and last element of its own unaugmented list (for the two boundary
years the lone sample serves in both roles), and each year of the range is
then padded from its neighbours' recorded values. -/
def padTable (s e : Int) (t : Table) : Table :=
  padWith s e (fun y => (dget t y).getLastD 0) (fun y => (dget t y).headD 0) t

/-- Python `del d[k]` (source lines 192-193): remove the key, raising
`KeyError` (a fatal consistency failure) when it is absent. -/
def delKey (t : Table) (k : Int) : Except Err Table :=
  if hasKey t k then Except.ok (t.filter (fun p => !(p.1 == k))) else Except.error Err.consistencyError

/-- Everything after parsing (source lines 169-193): group, assert the
boundary cardinalities, build the side table (failing on an empty year),
pad, and delete the two boundary years. -/
def buildTable (s e : Int) (rows : List Str) : Except Err Table :=
  match groupRows rows with
  | Except.error er => Except.error er
  | Except.ok t0 =>
    match checkBoundaries s e t0 with
    | Except.error er => Except.error er
    | Except.ok t1 =>
      match checkYears s e t1 with
      | Except.error er => Except.error er
      | Except.ok t2 =>
        match delKey (padTable s e t2) (s - 1) with
        | Except.error er => Except.error er
        | Except.ok t3 => delKey t3 (e + 1)

/-- The `$$SOE` start-of-data sentinel. -/
def soe : Str := str "$$SOE"

/-- The `$$EOE` end-of-data sentinel. -/
def eoe : Str := str "$$EOE"

/-- Python `list.index`: position of the first occurrence, `ValueError`
(`none`) when absent (source line 170). -/
def indexOfFirst (l : List Str) (target : Str) : Option Nat :=
  match l with
  | [] => none
  | x :: xs => if x = target then some 0 else (indexOfFirst xs target).map (· + 1)

/-- Sentinel extraction (source line 170):
`lines[lines.index('$$SOE')+1 : lines.index('$$EOE')]`; a missing sentinel is
a fatal format error. -/
def extractRows (lines : List Str) : Except Err (List Str) :=
  match indexOfFirst lines soe, indexOfFirst lines eoe with
  | some i, some j => Except.ok ((lines.drop (i + 1)).take (j - (i + 1)))
  | _, _ => Except.error Err.formatError

/-- The whole post-fetch pipeline on the response's list of lines
(source lines 168-193): extract the data rows between the sentinels and build
the final year table. -/
def pipeline (s e : Int) (lines : List Str) : Except Err Table :=
  match extractRows lines with
  | Except.error er => Except.error er
  | Except.ok rows => buildTable s e rows

/-- The pipeline on the raw response text, including the split on newlines
(source line 168). -/
def runEot (s e : Int) (text : Str) : Except Err Table :=
  pipeline s e (splitOnChar '\n' text)

/-- Configured start year of the source script (`start = 2000`, line 149). -/
def startYear : Int := 2000

/-- Configured end year of the source script (`end = 2100`, line 150); the
source's name `end` is a reserved word here. -/
def endYear : Int := 2100

/-- Python list indexing `l[i]` including negative indices: `l[i]` for
`0 ≤ i < len`, `l[len + i]` for `-len ≤ i < 0`, `IndexError` (`none`)
otherwise.  Used to state the spec's `table[y][0]`, `table[y][1]`,
`table[y][-1]`, `table[y][-2]` properties. -/
def pyIdx (l : List ℚ) (i : Int) : Option ℚ :=
  if 0 ≤ i then l[i.toNat]?
  else if (-i).toNat ≤ l.length then l[l.length - (-i).toNat]? else none

/-- Gregorian leap-year rule: divisible by 4, and not by 100 unless also
by 400. -/
def isLeap (y : Int) : Bool :=
  y % 4 == 0 && (y % 100 != 0 || y % 400 == 0)

/-- Number of days in a Gregorian calendar year. -/
def daysInYear (y : Int) : Nat :=
  if isLeap y then 366 else 365

/-- The values of year `y` among the parsed rows, in input (chronological)
order; under a successful run this is exactly `eots_of_year[y]` before
padding. -/
def parsedOfYear (y : Int) (rows : List Str) : List ℚ :=
  rows.filterMap (fun line =>
    match parseRow line with
    | Except.ok yv => if yv.1 = y then some yv.2 else none
    | Except.error _ => none)

/-! ### Concrete response fixtures used to instantiate the theorems -/

/-- Two-year run with distinct values at every boundary. -/
def eotC1Lines : List Str :=
  [soe, str "1999 11 57 0", str "2000 11 58 0", str "2001 11 59 0", str "2002 12 1 0", eoe]

/-- Run whose requested year 2000 (a leap year) has exactly one data row per
calendar day. -/
def eotC2Lines : List Str :=
  soe :: str "1999 11 57 0" ::
    (List.replicate 366 (str "2000 11 57 0") ++ [str "2001 11 57 0", eoe])

/-- Data rows of `eotC2Lines`. -/
def eotC2Rows : List Str :=
  str "1999 11 57 0" :: (List.replicate 366 (str "2000 11 57 0") ++ [str "2001 11 57 0"])

/-- Grouped table of `eotC2Rows`. -/
def eotC2Grouped : Table :=
  [(1999, [-3]), (2000, List.replicate 366 (-3 : ℚ)), (2001, [-3])]

/-- Final table of the `eotC2Lines` run. -/
def eotC2Final : Table :=
  [(2000, -3 :: (List.replicate 366 (-3 : ℚ) ++ [-3]))]

/-- A well-formed Horizons data row (from the response excerpt in the source's
docstring). -/
def eotC3Line : Str := str "2000-Jan-01 12:00 *m 11 56 43.2074"

/-- Run whose data rows include a stray year outside the requested window. -/
def eotC4Lines : List Str :=
  [str "x", soe, str "1999 11 57 0", str "2000 11 57 0", str "2001 11 57 0",
    str "1990 11 57 0", eoe]

/-- Minimal clean single-year run. -/
def eotC4WLines : List Str :=
  [soe, str "1999 11 57 0", str "2000 11 57 0", str "2001 11 57 0", eoe]

/-- Single-year run with distinct interior value. -/
def eotC5Lines : List Str :=
  [soe, str "1999 11 57 0", str "2000 11 58 0", str "2001 11 59 0", eoe]

/-- Data rows of `eotC5Lines`. -/
def eotC5Rows : List Str :=
  [str "1999 11 57 0", str "2000 11 58 0", str "2001 11 59 0"]

/-- Run with no sample at all for the boundary year 1999. -/
def eotC6Lines : List Str := [soe, str "2000 11 57 0", str "2001 11 57 0", eoe]

/-- Data rows of `eotC6Lines`. -/
def eotC6Rows : List Str := [str "2000 11 57 0", str "2001 11 57 0"]

/-- Grouped table of `eotC6Rows`. -/
def eotC6Grouped : Table := [(2000, [-3]), (2001, [-3])]

/-- Lines with both sentinels around one data row. -/
def eotC7Good : List Str := [str "x", soe, str "a", eoe]

/-- Lines with no `$$SOE` sentinel. -/
def eotC7Bad : List Str := [str "x", str "a"]

/-- A data row with only 3 whitespace tokens, all numeric. -/
def eotC8Row : Str := str "2000 11 57"

/-- Run containing the 3-token row `eotC8Row`. -/
def eotC8Lines : List Str :=
  [soe, str "1999 11 57 0", str "2000 11 57", str "2001 11 57 0", eoe]

/-- A data row with a single token. -/
def eotC8WLine : Str := str "11"

/-- Run containing only the 1-token row `eotC8WLine`. -/
def eotC8WLines : List Str := [soe, str "11", eoe]

/-- The spec's worked example row: apparent time 11:57:11.8441 (also the first
data row of the response excerpt in the source's docstring). -/
def eotC9Line : Str := str "1999-Dec-31 12:00 *m 11 57 11.8441"

/-- Run whose year-2000 row carries an apparent time close to midnight. -/
def eotC10Lines : List Str :=
  [soe, str "1999 11 57 0", str "2000-Jan-01 23 59 59", str "2001 11 57 0", eoe]

/-- Minimal clean run for the range property. -/
def eotC10WLines : List Str :=
  [soe, str "1999 11 57 0", str "2000 11 57 0", str "2001 11 57 0", eoe]

/-- Data rows of `eotC10WLines`. -/
def eotC10WRows : List Str :=
  [str "1999 11 57 0", str "2000 11 57 0", str "2001 11 57 0"]

/-! ### Structural lemmas about the dictionary model -/

theorem dget_dtouch (t : Table) (k k' : Int) : dget (dtouch t k) k' = dget t k' := by
  induction t with
  | nil =>
    simp only [dtouch, dget]
    split <;> rfl
  | cons p rest ih =>
    by_cases h : p.1 = k
    · simp [dtouch, h]
    · simp [dtouch, h, dget, ih]

theorem hasKey_of_dget_ne (t : Table) (k : Int) (h : dget t k ≠ []) : hasKey t k = true := by
  induction t with
  | nil => simp [dget] at h
  | cons p rest ih =>
    by_cases hp : p.1 = k
    · simp [hasKey, hp]
    · simp only [dget, hp, if_false] at h
      simp [hasKey, hp, ih h]

theorem dtouch_of_hasKey (t : Table) (k : Int) (h : hasKey t k = true) : dtouch t k = t := by
  induction t with
  | nil => simp [hasKey] at h
  | cons p rest ih =>
    by_cases hp : p.1 = k
    · simp [dtouch, hp]
    · simp only [hasKey, hp, Bool.or_eq_true, beq_iff_eq, false_or] at h
      simp [dtouch, hp, ih h]

theorem dget_dappend_self (t : Table) (k : Int) (v : ℚ) :
    dget (dappend t k v) k = dget t k ++ [v] := by
  induction t with
  | nil => simp [dappend, dget]
  | cons p rest ih =>
    by_cases hp : p.1 = k
    · simp [dappend, dget, hp]
    · simp [dappend, dget, hp, ih]

theorem dget_dappend_ne (t : Table) (k k' : Int) (v : ℚ) (h : k ≠ k') :
    dget (dappend t k v) k' = dget t k' := by
  induction t with
  | nil => simp [dappend, dget, fun hh => h hh]
  | cons p rest ih =>
    by_cases hp : p.1 = k
    · subst hp
      simp [dappend, dget, h]
    · simp [dappend, dget, hp, ih]

theorem hasKey_iff_mem (t : Table) (k : Int) :
    hasKey t k = true ↔ k ∈ t.map Prod.fst := by
  induction t with
  | nil => simp [hasKey]
  | cons p rest ih =>
    simp only [hasKey, Bool.or_eq_true, beq_iff_eq, ih, List.map_cons, List.mem_cons]
    constructor
    · rintro (h | h)
      · exact Or.inl h.symm
      · exact Or.inr h
    · rintro (h | h)
      · exact Or.inl h.symm
      · exact Or.inr h

theorem keys_dappend (t : Table) (k : Int) (v : ℚ) :
    (dappend t k v).map Prod.fst =
      if hasKey t k then t.map Prod.fst else t.map Prod.fst ++ [k] := by
  induction t with
  | nil => simp [dappend, hasKey]
  | cons p rest ih =>
    by_cases hp : p.1 = k
    · simp [dappend, hasKey, hp]
    · simp only [dappend, hp, if_false, hasKey]
      by_cases hr : hasKey rest k
      · simp [hr, hp, ih]
      · simp [hr, hp, ih]

theorem nodup_keys_dappend (t : Table) (k : Int) (v : ℚ)
    (h : (t.map Prod.fst).Nodup) : ((dappend t k v).map Prod.fst).Nodup := by
  rw [keys_dappend]
  by_cases hk : hasKey t k
  · simp [hk, h]
  · simp only [hk, if_false]
    refine List.Nodup.append h (List.nodup_singleton k) ?_
    intro a ha hb
    simp only [List.mem_singleton] at hb
    subst hb
    exact hk ((hasKey_iff_mem t a).mpr ha)

theorem dget_eq_snd_of_mem (t : Table) (p : Int × List ℚ)
    (hnd : (t.map Prod.fst).Nodup) (hp : p ∈ t) : dget t p.1 = p.2 := by
  induction t with
  | nil => simp at hp
  | cons q rest ih =>
    simp only [List.map_cons, List.nodup_cons] at hnd
    rcases List.mem_cons.mp hp with h | h
    · subst h
      simp [dget]
    · have hne : q.1 ≠ p.1 := by
        intro he
        exact hnd.1 (by rw [he]; exact List.mem_map_of_mem Prod.fst h)
      simp [dget, hne, ih hnd.2 h]

/-! ### The grouping loop -/

theorem groupLoop_values (rows : List Str) :
    ∀ acc t0 : Table, groupLoop acc rows = Except.ok t0 →
      ∀ y, dget t0 y = dget acc y ++ parsedOfYear y rows := by
  induction rows with
  | nil =>
    intro acc t0 h y
    simp only [groupLoop] at h
    injection h with h
    subst h
    simp [parsedOfYear]
  | cons line rest ih =>
    intro acc t0 h y
    cases hp : parseRow line with
    | error er => simp [groupLoop, hp] at h
    | ok yv =>
      simp only [groupLoop, hp] at h
      have hval := ih (dappend acc yv.1 yv.2) t0 h y
      by_cases hy : yv.1 = y
      · subst hy
        rw [hval, dget_dappend_self]
        simp [parsedOfYear, List.filterMap_cons, hp]
      · rw [hval, dget_dappend_ne _ _ _ _ hy]
        simp [parsedOfYear, List.filterMap_cons, hp, hy]

theorem groupLoop_nodup (rows : List Str) :
    ∀ acc t0 : Table, groupLoop acc rows = Except.ok t0 →
      (acc.map Prod.fst).Nodup → (t0.map Prod.fst).Nodup := by
  induction rows with
  | nil =>
    intro acc t0 h hnd
    simp only [groupLoop] at h
    injection h with h
    subst h
    exact hnd
  | cons line rest ih =>
    intro acc t0 h hnd
    cases hp : parseRow line with
    | error er => simp [groupLoop, hp] at h
    | ok yv =>
      simp only [groupLoop, hp] at h
      exact ih _ _ h (nodup_keys_dappend _ _ _ hnd)

theorem groupLoop_error (rows : List Str) :
    ∀ acc : Table, (∃ line ∈ rows, ∃ er, parseRow line = Except.error er) →
      ∀ t0, groupLoop acc rows ≠ Except.ok t0 := by
  induction rows with
  | nil =>
    intro acc h t0
    rcases h with ⟨l, hl, _⟩
    simp at hl
  | cons line rest ih =>
    intro acc h t0
    rcases h with ⟨l, hl, er, her⟩
    rcases List.mem_cons.mp hl with rfl | hl
    · simp [groupLoop, her]
    · cases hp : parseRow line with
      | error er2 => simp [groupLoop, hp]
      | ok yv =>
        simp only [groupLoop, hp]
        exact ih _ ⟨l, hl, er, her⟩ t0

/-! ### The side-table loop and the boundary assertions -/

theorem yearLoop_ok (ys : List Int) :
    ∀ t t' : Table, yearLoop t ys = Except.ok t' →
      t' = t ∧ ∀ y ∈ ys, dget t y ≠ [] := by
  induction ys with
  | nil =>
    intro t t' h
    simp only [yearLoop] at h
    injection h with h
    subst h
    exact ⟨rfl, by simp⟩
  | cons y rest ih =>
    intro t t' h
    simp only [yearLoop, dget_dtouch] at h
    by_cases hy : dget t y = []
    · simp [hy] at h
    · rw [if_neg hy, dtouch_of_hasKey _ _ (hasKey_of_dget_ne _ _ hy)] at h
      obtain ⟨ht, hall⟩ := ih t t' h
      refine ⟨ht, ?_⟩
      intro z hz
      rcases List.mem_cons.mp hz with rfl | hz
      · exact hy
      · exact hall z hz

theorem mem_yearRange {s e y : Int} : y ∈ yearRange s e ↔ s ≤ y ∧ y ≤ e := by
  unfold yearRange
  rw [List.mem_map]
  constructor
  · rintro ⟨i, hi, hiy⟩
    rw [List.mem_range] at hi
    have hy2 : y = s + (i : Int) := hiy.symm
    subst hy2
    omega
  · intro h
    refine ⟨(y - s).toNat, ?_, ?_⟩
    · rw [List.mem_range]
      omega
    · show s + ((y - s).toNat : Int) = y
      omega

theorem checkBoundaries_ok {s e : Int} {t t' : Table}
    (h : checkBoundaries s e t = Except.ok t') :
    t' = t ∧ (dget t (s - 1)).length = 1 ∧ (dget t (e + 1)).length = 1 := by
  unfold checkBoundaries at h
  simp only [dget_dtouch] at h
  by_cases hc : (dget t (s - 1)).length = 1 ∧ (dget t (e + 1)).length = 1
  · rw [if_pos hc] at h
    injection h with h
    have hne1 : dget t (s - 1) ≠ [] := by
      intro hnil
      rw [hnil] at hc
      simp at hc
    have hne2 : dget t (e + 1) ≠ [] := by
      intro hnil
      rw [hnil] at hc
      simp at hc
    rw [dtouch_of_hasKey _ _ (hasKey_of_dget_ne _ _ hne1),
      dtouch_of_hasKey _ _ (hasKey_of_dget_ne _ _ hne2)] at h
    exact ⟨h.symm, hc⟩
  · rw [if_neg hc] at h
    cases h

theorem checkBoundaries_error {s e : Int} {t : Table}
    (h : (dget t (s - 1)).length ≠ 1 ∨ (dget t (e + 1)).length ≠ 1) :
    checkBoundaries s e t = Except.error Err.consistencyError := by
  unfold checkBoundaries
  simp only [dget_dtouch]
  rw [if_neg]
  tauto

/-! ### Padding and boundary deletion -/

theorem keys_padWith (s e : Int) (eL eF : Int → ℚ) (t : Table) :
    (padWith s e eL eF t).map Prod.fst = t.map Prod.fst := by
  induction t with
  | nil => rfl
  | cons p rest ih =>
    simp only [padWith, List.map_cons] at *
    by_cases hc : s ≤ p.1 ∧ p.1 ≤ e
    · simp only [if_pos hc]
      simp [ih]
    · simp only [if_neg hc]
      simp [ih]

theorem dget_padWith_in (s e : Int) (eL eF : Int → ℚ) (t : Table) (k : Int)
    (hk : hasKey t k = true) (h1 : s ≤ k) (h2 : k ≤ e) :
    dget (padWith s e eL eF t) k = eL (k - 1) :: (dget t k ++ [eF (k + 1)]) := by
  induction t with
  | nil => simp [hasKey] at hk
  | cons p rest ih =>
    simp only [padWith, List.map_cons]
    by_cases hp : p.1 = k
    · subst hp
      rw [if_pos ⟨h1, h2⟩]
      simp [dget]
    · have hk' : hasKey rest k = true := by
        simp only [hasKey, Bool.or_eq_true, beq_iff_eq] at hk
        tauto
      have hrec := ih hk'
      simp only [padWith] at hrec
      by_cases hc : s ≤ p.1 ∧ p.1 ≤ e
      · rw [if_pos hc]
        simp only [dget, hp, if_false]
        exact hrec
      · rw [if_neg hc]
        simp only [dget, hp, if_false]
        exact hrec

theorem dget_filterKey (t : Table) (k k' : Int) (h : k' ≠ k) :
    dget (t.filter (fun p => !(p.1 == k))) k' = dget t k' := by
  induction t with
  | nil => rfl
  | cons p rest ih =>
    by_cases hp : p.1 = k
    · have hne : ¬ p.1 = k' := by
        rw [hp]
        exact fun hh => h hh.symm
      rw [List.filter_cons, if_neg (by simp [hp])]
      rw [ih]
      simp [dget, hne]
    · simp [List.filter_cons, hp, dget, ih]

theorem keys_filterKey (t : Table) (k : Int) :
    (t.filter (fun p => !(p.1 == k))).map Prod.fst =
      (t.map Prod.fst).filter (fun x => !(x == k)) := by
  induction t with
  | nil => rfl
  | cons p rest ih =>
    by_cases hp : p.1 = k
    · simp [List.filter_cons, hp, ih]
    · simp [List.filter_cons, hp, ih]

theorem not_mem_keys_filterKey (t : Table) (k : Int) :
    k ∉ (t.filter (fun p => !(p.1 == k))).map Prod.fst := by
  rw [keys_filterKey]
  intro hmem
  have hcond := (List.mem_filter.mp hmem).2
  simp at hcond

theorem mem_keys_filterKey {t : Table} {k x : Int}
    (h : x ∈ (t.filter (fun p => !(p.1 == k))).map Prod.fst) :
    x ∈ t.map Prod.fst := by
  rw [keys_filterKey] at h
  exact (List.mem_filter.mp h).1

theorem delKey_ok {t : Table} {k : Int} {t' : Table} (h : delKey t k = Except.ok t') :
    t' = t.filter (fun p => !(p.1 == k)) := by
  unfold delKey at h
  by_cases hk : hasKey t k = true
  · rw [if_pos hk] at h
    injection h with h
    exact h.symm
  · rw [if_neg hk] at h
    cases h

/-! ### Parsed values and list access -/

theorem exists_row_of_mem_parsed {y : Int} {rows : List Str} {v : ℚ}
    (h : v ∈ parsedOfYear y rows) : ∃ line ∈ rows, parseRow line = Except.ok (y, v) := by
  rcases List.mem_filterMap.mp h with ⟨line, hline, hf⟩
  refine ⟨line, hline, ?_⟩
  cases hp : parseRow line with
  | error er =>
    simp only [hp] at hf
    simp at hf
  | ok yv =>
    obtain ⟨y1, v1⟩ := yv
    simp only [hp] at hf
    by_cases hy : y1 = y
    · rw [if_pos hy] at hf
      injection hf with hf
      subst hy
      subst hf
      rfl
    · rw [if_neg hy] at hf
      cases hf

theorem headD_mem {l : List ℚ} (h : l ≠ []) : l.headD 0 ∈ l := by
  cases l with
  | nil => exact absurd rfl h
  | cons a rest => simp

theorem getLastD_irrel {l : List ℚ} (d d' : ℚ) (h : l ≠ []) :
    l.getLastD d = l.getLastD d' := by
  cases l with
  | nil => exact absurd rfl h
  | cons a rest =>
    cases rest with
    | nil => rfl
    | cons b rest2 => simp only [List.getLastD_cons]

theorem getLastD_mem {l : List ℚ} (h : l ≠ []) : l.getLastD 0 ∈ l := by
  induction l with
  | nil => exact absurd rfl h
  | cons a rest ih =>
    cases rest with
    | nil => simp [List.getLastD]
    | cons b rest2 =>
      rw [List.getLastD_cons]
      rw [getLastD_irrel a 0 (by simp)]
      exact List.mem_cons_of_mem a (ih (by simp))

theorem getLast?_eq_getLastD {l : List ℚ} (h : l ≠ []) :
    l.getLast? = some (l.getLastD 0) := by
  induction l with
  | nil => exact absurd rfl h
  | cons a rest ih =>
    cases rest with
    | nil => rfl
    | cons b rest2 =>
      rw [List.getLast?_cons_cons, ih (by simp)]
      simp only [List.getLastD_cons]

theorem pyIdx_zero (a : ℚ) (l : List ℚ) : pyIdx (a :: l) 0 = some a := by
  simp [pyIdx]

theorem pyIdx_one {M : List ℚ} (a b : ℚ) (h : M ≠ []) :
    pyIdx (a :: (M ++ [b])) 1 = some (M.headD 0) := by
  cases M with
  | nil => exact absurd rfl h
  | cons m rest =>
    simp [pyIdx]

theorem pyIdx_neg_one (l : List ℚ) (b : ℚ) : pyIdx (l ++ [b]) (-1) = some b := by
  have hlen : (l ++ [b]).length = l.length + 1 := by simp
  have h1 : (-(-1 : Int)).toNat = 1 := rfl
  simp only [pyIdx, h1, hlen]
  rw [if_neg (by norm_num), if_pos (by omega)]
  rw [show l.length + 1 - 1 = l.length from rfl]
  rw [List.getElem?_append_right (Nat.le_refl _)]
  simp

theorem pyIdx_neg_two {M : List ℚ} (a b : ℚ) (h : M ≠ []) :
    pyIdx (a :: (M ++ [b])) (-2) = some (M.getLastD 0) := by
  have hlen : (a :: (M ++ [b])).length = M.length + 2 := by simp
  have h2 : (-(-2 : Int)).toNat = 2 := rfl
  simp only [pyIdx, h2, hlen]
  rw [if_neg (by norm_num), if_pos (by omega)]
  rw [show M.length + 2 - 2 = M.length from rfl]
  cases M with
  | nil => exact absurd rfl h
  | cons m rest =>
    rw [show (m :: rest).length = rest.length + 1 from rfl]
    rw [show (a :: ((m :: rest) ++ [b])) = a :: (m :: (rest ++ [b])) from rfl]
    rw [List.getElem?_cons_succ]
    rw [show (m :: (rest ++ [b])) = (m :: rest) ++ [b] from rfl]
    rw [List.getElem?_append_left (by simp)]
    rw [show rest.length = (m :: rest).length - 1 from rfl]
    rw [← List.getLast?_eq_getElem?]
    exact getLast?_eq_getLastD (by simp)

/-! ### Characterization of a successful run -/

theorem buildTable_ok {s e : Int} {rows : List Str} {t : Table}
    (h : buildTable s e rows = Except.ok t) :
    ∃ t0, groupRows rows = Except.ok t0 ∧
      (dget t0 (s - 1)).length = 1 ∧ (dget t0 (e + 1)).length = 1 ∧
      (∀ y, s ≤ y → y ≤ e → dget t0 y ≠ []) ∧
      t = ((padTable s e t0).filter (fun p => !(p.1 == s - 1))).filter
            (fun p => !(p.1 == e + 1)) := by
  unfold buildTable at h
  cases hg : groupRows rows with
  | error er => rw [hg] at h; cases h
  | ok t0 =>
    rw [hg] at h
    dsimp only at h
    cases hb : checkBoundaries s e t0 with
    | error er => rw [hb] at h; cases h
    | ok t1 =>
      rw [hb] at h
      dsimp only at h
      obtain ⟨ht1, hlen1, hlen2⟩ := checkBoundaries_ok hb
      rw [ht1] at h
      cases hy : checkYears s e t0 with
      | error er => rw [hy] at h; cases h
      | ok t2 =>
        rw [hy] at h
        dsimp only at h
        unfold checkYears at hy
        obtain ⟨ht2, hall⟩ := yearLoop_ok _ _ _ hy
        rw [ht2] at h
        cases hd1 : delKey (padTable s e t0) (s - 1) with
        | error er => rw [hd1] at h; cases h
        | ok t3 =>
          rw [hd1] at h
          dsimp only at h
          have h3 := delKey_ok hd1
          have h4 := delKey_ok h
          refine ⟨t0, rfl, hlen1, hlen2, ?_, ?_⟩
          · intro y h1 h2
            exact hall y (mem_yearRange.mpr ⟨h1, h2⟩)
          · rw [h4, h3]

theorem pipeline_ok {s e : Int} {lines : List Str} {t : Table}
    (h : pipeline s e lines = Except.ok t) :
    ∃ rows, extractRows lines = Except.ok rows ∧ buildTable s e rows = Except.ok t := by
  unfold pipeline at h
  cases hx : extractRows lines with
  | error er => rw [hx] at h; cases h
  | ok rows =>
    rw [hx] at h
    dsimp only at h
    exact ⟨rows, rfl, h⟩

theorem dget_finalTable {s e : Int} {t0 : Table}
    (hne : ∀ y, s ≤ y → y ≤ e → dget t0 y ≠ []) {y : Int} (h1 : s ≤ y) (h2 : y ≤ e) :
    dget (((padTable s e t0).filter (fun p => !(p.1 == s - 1))).filter
        (fun p => !(p.1 == e + 1))) y =
      (dget t0 (y - 1)).getLastD 0 :: (dget t0 y ++ [(dget t0 (y + 1)).headD 0]) := by
  rw [dget_filterKey _ _ _ (by omega), dget_filterKey _ _ _ (by omega)]
  unfold padTable
  exact dget_padWith_in s e _ _ t0 y (hasKey_of_dget_ne _ _ (hne y h1 h2)) h1 h2

theorem keys_finalTable (s e : Int) (t0 : Table) :
    ((((padTable s e t0).filter (fun p => !(p.1 == s - 1))).filter
        (fun p => !(p.1 == e + 1))).map Prod.fst) =
      ((t0.map Prod.fst).filter (fun x => !(x == s - 1))).filter
        (fun x => !(x == e + 1)) := by
  rw [keys_filterKey, keys_filterKey]
  unfold padTable
  rw [keys_padWith]

theorem mem_final_values {s e : Int} {t0 : Table} {p : Int × List ℚ}
    (hnd : (t0.map Prod.fst).Nodup)
    (hs1 : (dget t0 (s - 1)).length = 1) (hs2 : (dget t0 (e + 1)).length = 1)
    (hne : ∀ y, s ≤ y → y ≤ e → dget t0 y ≠ [])
    (hp : p ∈ ((padTable s e t0).filter (fun p => !(p.1 == s - 1))).filter
        (fun p => !(p.1 == e + 1)))
    {v : ℚ} (hv : v ∈ p.2) :
    ∃ y, v ∈ dget t0 y := by
  have hp1 : p ∈ padTable s e t0 :=
    List.mem_of_mem_filter (List.mem_of_mem_filter hp)
  unfold padTable padWith at hp1
  rcases List.mem_map.mp hp1 with ⟨q, hq, hpq⟩
  by_cases hc : s ≤ q.1 ∧ q.1 ≤ e
  · rw [if_pos hc] at hpq
    subst hpq
    rcases List.mem_cons.mp hv with rfl | hv2
    · refine ⟨q.1 - 1, ?_⟩
      apply getLastD_mem
      by_cases hqs : q.1 = s
      · rw [hqs]
        intro hnil
        rw [hnil] at hs1
        simp at hs1
      · exact hne _ (by omega) (by omega)
    · rcases List.mem_append.mp hv2 with hv3 | hv3
      · refine ⟨q.1, ?_⟩
        rw [dget_eq_snd_of_mem t0 q hnd hq]
        exact hv3
      · simp only [List.mem_singleton] at hv3
        subst hv3
        refine ⟨q.1 + 1, ?_⟩
        apply headD_mem
        by_cases hqe : q.1 = e
        · rw [hqe]
          intro hnil
          rw [hnil] at hs2
          simp at hs2
        · exact hne _ (by omega) (by omega)
  · rw [if_neg hc] at hpq
    subst hpq
    refine ⟨q.1, ?_⟩
    rw [dget_eq_snd_of_mem t0 q hnd hq]
    exact hv

/-! ### Claims -/

/-- C1: after padding, at every internal year boundary the prepended value of
year `y` equals the previous year's own last day (`table[y][0] == table[y-1][-2]`
for all `y` in `(start, end]`), and the appended value of year `y` equals the
next year's second entry (`table[y][-1] == table[y+1][1]` for all `y` in
`[start, end)`). -/
theorem C1_boundary_continuity (s e : Int) (lines : List Str) (t : Table)
    (h : pipeline s e lines = Except.ok t) :
    (∀ y, s < y → y ≤ e →
      pyIdx (dget t y) 0 = pyIdx (dget t (y - 1)) (-2) ∧
        (pyIdx (dget t y) 0).isSome = true) ∧
    (∀ y, s ≤ y → y < e →
      pyIdx (dget t y) (-1) = pyIdx (dget t (y + 1)) 1 ∧
        (pyIdx (dget t y) (-1)).isSome = true) := by
  obtain ⟨rows, hx, hb⟩ := pipeline_ok h
  obtain ⟨t0, hg, hs1, hs2, hne, rfl⟩ := buildTable_ok hb
  constructor
  · intro y hy1 hy2
    have hdy := @dget_finalTable s e t0 hne y (by omega) hy2
    have hdy1 := @dget_finalTable s e t0 hne (y - 1) (by omega) (by omega)
    have hm : dget t0 (y - 1) ≠ [] := hne _ (by omega) (by omega)
    rw [hdy, hdy1, pyIdx_zero, pyIdx_neg_two _ _ hm]
    exact ⟨rfl, rfl⟩
  · intro y hy1 hy2
    have hdy := @dget_finalTable s e t0 hne y hy1 (by omega)
    have hdy1 := @dget_finalTable s e t0 hne (y + 1) (by omega) (by omega)
    have hm : dget t0 (y + 1) ≠ [] := hne _ (by omega) (by omega)
    rw [hdy, hdy1, ← List.cons_append, pyIdx_neg_one, pyIdx_one _ _ hm]
    exact ⟨rfl, rfl⟩

/-- Witness for C1: a concrete accepted two-year run in which both boundary
continuity equations hold with defined (`some`) values. -/
theorem C1_boundary_continuity_witness :
    pipeline 2000 2001 eotC1Lines =
      Except.ok [(2000, [-3, -2, -1]), (2001, [-2, -1, 1])] ∧
    pyIdx (dget [(2000, [-3, -2, -1]), (2001, [-2, -1, 1])] 2001) 0 =
      pyIdx (dget [(2000, [-3, -2, -1]), (2001, [-2, -1, 1])] 2000) (-2) ∧
    pyIdx (dget [(2000, [-3, -2, -1]), (2001, [-2, -1, 1])] 2000) (-1) =
      pyIdx (dget [(2000, [-3, -2, -1]), (2001, [-2, -1, 1])] 2001) 1 := by
  have hok : pipeline 2000 2001 eotC1Lines =
      Except.ok [(2000, [-3, -2, -1]), (2001, [-2, -1, 1])] := by
    with_unfolding_all rfl
  have hall := C1_boundary_continuity 2000 2001 eotC1Lines _ hok
  exact ⟨hok, (hall.1 2001 (by norm_num) (by norm_num)).1,
    (hall.2 2000 (by norm_num) (by norm_num)).1⟩

/-- C2: when the parsed response contains exactly one data row per calendar
day of each year of the requested range, every final augmented sequence has
length `daysInYear y + 2`, with the Gregorian leap rule. -/
theorem C2_augmented_length (s e : Int) (lines rows : List Str) (t0 t : Table)
    (hx : extractRows lines = Except.ok rows)
    (hg : groupRows rows = Except.ok t0)
    (h : pipeline s e lines = Except.ok t)
    (hdays : ∀ y, s ≤ y → y ≤ e → (dget t0 y).length = daysInYear y) :
    ∀ y, s ≤ y → y ≤ e → (dget t y).length = daysInYear y + 2 := by
  obtain ⟨rows2, hx2, hb⟩ := pipeline_ok h
  rw [hx] at hx2
  injection hx2 with hr
  subst hr
  obtain ⟨t0b, hgb, hs1, hs2, hne, rfl⟩ := buildTable_ok hb
  rw [hg] at hgb
  injection hgb with ht0
  subst ht0
  intro y h1 h2
  rw [dget_finalTable hne h1 h2]
  simp only [List.length_cons, List.length_append, List.length_singleton]
  rw [hdays y h1 h2]
  simp

set_option maxRecDepth 200000 in
/-- Witness for C2: a concrete accepted run for the leap year 2000 with 366
data rows for that year; the final sequence has length 368. -/
theorem C2_augmented_length_witness :
    extractRows eotC2Lines = Except.ok eotC2Rows ∧
    groupRows eotC2Rows = Except.ok eotC2Grouped ∧
    pipeline 2000 2000 eotC2Lines = Except.ok eotC2Final ∧
    (dget eotC2Grouped 2000).length = daysInYear 2000 ∧
    (dget eotC2Final 2000).length = daysInYear 2000 + 2 := by
  have hx : extractRows eotC2Lines = Except.ok eotC2Rows := by
    with_unfolding_all rfl
  have hg : groupRows eotC2Rows = Except.ok eotC2Grouped := by
    with_unfolding_all rfl
  have hok : pipeline 2000 2000 eotC2Lines = Except.ok eotC2Final := by
    with_unfolding_all rfl
  have h366 : (dget eotC2Grouped 2000).length = daysInYear 2000 := by
    with_unfolding_all rfl
  have hdays : ∀ y, (2000 : Int) ≤ y → y ≤ 2000 →
      (dget eotC2Grouped y).length = daysInYear y := by
    intro y h1 h2
    have hy : y = 2000 := le_antisymm h2 h1
    subst hy
    exact h366
  exact ⟨hx, hg, hok, h366,
    C2_augmented_length 2000 2000 eotC2Lines eotC2Rows eotC2Grouped eotC2Final
      hx hg hok hdays 2000 (by norm_num) (by norm_num)⟩

/-- C3: whenever the last three whitespace tokens of a data row parse as hour,
minute and second, the value the parser stores for that row is exactly the
spec's conversion `(h + (m + s/60)/60 - 12) * 60` rounded to 2 decimals. -/
theorem C3_conversion (line : Str) (h m s : ℚ)
    (hh : (pyNeg (splitWS line) 3).bind pyFloat = some h)
    (hm : (pyNeg (splitWS line) 2).bind pyFloat = some m)
    (hs : (pyNeg (splitWS line) 1).bind pyFloat = some s) :
    ∀ y v, parseRow line = Except.ok (y, v) → v = eotSpecFormula h m s := by
  intro y v hp
  unfold parseRow at hp
  cases hsplit : splitWS line with
  | nil =>
    rw [hsplit] at hp
    cases hp
  | cons t0 rest =>
    rw [hsplit] at hp hh hm hs
    dsimp only at hp
    cases hint : pyInt ((splitOnChar '-' t0).headD []) with
    | none =>
      rw [hint] at hp
      cases hp
    | some year =>
      rw [hint] at hp
      dsimp only at hp
      rw [hh, hm, hs] at hp
      dsimp only at hp
      injection hp with hp2
      injection hp2 with hpy hpv
      unfold eotSpecFormula
      exact hpv.symm

/-- Witness for C3: the docstring row `2000-Jan-01 12:00 *m 11 56 43.2074`
parses to hour 11, minute 56, second 43.2074, and the stored value is the
formula's result −3.28. -/
theorem C3_conversion_witness :
    (pyNeg (splitWS eotC3Line) 3).bind pyFloat = some 11 ∧
    (pyNeg (splitWS eotC3Line) 2).bind pyFloat = some 56 ∧
    (pyNeg (splitWS eotC3Line) 1).bind pyFloat = some (216037 / 5000) ∧
    parseRow eotC3Line = Except.ok (2000, -82 / 25) ∧
    (-82 / 25 : ℚ) = eotSpecFormula 11 56 (216037 / 5000) := by
  have h3 : (pyNeg (splitWS eotC3Line) 3).bind pyFloat = some 11 := by
    with_unfolding_all rfl
  have h2 : (pyNeg (splitWS eotC3Line) 2).bind pyFloat = some 56 := by
    with_unfolding_all rfl
  have h1 : (pyNeg (splitWS eotC3Line) 1).bind pyFloat = some (216037 / 5000) := by
    with_unfolding_all rfl
  have hp : parseRow eotC3Line = Except.ok (2000, -82 / 25) := by
    with_unfolding_all rfl
  exact ⟨h3, h2, h1, hp,
    C3_conversion eotC3Line 11 56 (216037 / 5000) h3 h2 h1 2000 (-82 / 25) hp⟩

/-- C4 counterexample: a run the program accepts without error whose data rows
include a stray year 1990 keeps the key 1990 in the final table, so the final
table is not restricted to the keys of `[start, end]`. -/
theorem C4_counterexample :
    pipeline 2000 2000 eotC4Lines =
      Except.ok [(2000, [-3, -3, -3]), (1990, [-3])] ∧
    (1990 : Int) ∈ ([(2000, [-3, -3, -3]), (1990, [-3])] : Table).map Prod.fst ∧
    ¬((2000 : Int) ≤ 1990 ∧ (1990 : Int) ≤ 2000) := by
  refine ⟨by with_unfolding_all rfl, ?_, by norm_num⟩
  simp

/-- C4 (amended): in every accepted run, each year of `[start, end]` appears
exactly once among the final table's keys and neither sentinel boundary year
(`start-1`, `end+1`) survives; but keys for stray years appearing in the data
outside the requested window do survive, so "no other keys" holds only for
responses confined to the requested window. -/
theorem C4_final_keys (s e : Int) (lines : List Str) (t : Table)
    (h : pipeline s e lines = Except.ok t) :
    (∀ y, s ≤ y → y ≤ e → (t.map Prod.fst).count y = 1) ∧
      (s - 1) ∉ t.map Prod.fst ∧ (e + 1) ∉ t.map Prod.fst := by
  obtain ⟨rows, hx, hb⟩ := pipeline_ok h
  obtain ⟨t0, hg, hs1, hs2, hne, rfl⟩ := buildTable_ok hb
  have hnd : (t0.map Prod.fst).Nodup := by
    unfold groupRows at hg
    exact groupLoop_nodup rows [] t0 hg (by simp)
  have hkeys := keys_finalTable s e t0
  refine ⟨?_, ?_, ?_⟩
  · intro y h1 h2
    rw [hkeys]
    apply List.count_eq_one_of_mem ((hnd.filter _).filter _)
    apply List.mem_filter.mpr
    refine ⟨List.mem_filter.mpr ⟨?_, ?_⟩, ?_⟩
    · exact (hasKey_iff_mem t0 y).mp (hasKey_of_dget_ne _ _ (hne y h1 h2))
    · have hy : y ≠ s - 1 := by omega
      simp [hy]
    · have hy : y ≠ e + 1 := by omega
      simp [hy]
  · intro hmem
    exact not_mem_keys_filterKey _ _ (mem_keys_filterKey hmem)
  · intro hmem
    exact not_mem_keys_filterKey _ _ hmem

/-- Witness for C4 (amended): a clean accepted single-year run; 2000 appears
exactly once and neither 1999 nor 2001 appears among the final keys. -/
theorem C4_final_keys_witness :
    pipeline 2000 2000 eotC4WLines = Except.ok [(2000, [-3, -3, -3])] ∧
    (([(2000, [-3, -3, -3])] : Table).map Prod.fst).count 2000 = 1 ∧
    ((2000 : Int) - 1) ∉ ([(2000, [-3, -3, -3])] : Table).map Prod.fst ∧
    ((2000 : Int) + 1) ∉ ([(2000, [-3, -3, -3])] : Table).map Prod.fst := by
  have hok : pipeline 2000 2000 eotC4WLines = Except.ok [(2000, [-3, -3, -3])] := by
    with_unfolding_all rfl
  have hall := C4_final_keys 2000 2000 eotC4WLines _ hok
  exact ⟨hok, hall.1 2000 (by norm_num) (by norm_num), hall.2.1, hall.2.2⟩

/-- C5: padding changes only the two ends: the interior slice
`table[y][1:-1]` of every final sequence equals the year's own parsed daily
values in input (chronological) order, and each interior value is the parse
result of one data row of that year. -/
theorem C5_interior (s e : Int) (lines rows : List Str) (t : Table)
    (hx : extractRows lines = Except.ok rows)
    (h : pipeline s e lines = Except.ok t) :
    ∀ y, s ≤ y → y ≤ e →
      ((dget t y).drop 1).dropLast = parsedOfYear y rows ∧
      ∀ v ∈ parsedOfYear y rows, ∃ line ∈ rows, parseRow line = Except.ok (y, v) := by
  obtain ⟨rows2, hx2, hb⟩ := pipeline_ok h
  rw [hx] at hx2
  injection hx2 with hr
  subst hr
  obtain ⟨t0, hg, hs1, hs2, hne, rfl⟩ := buildTable_ok hb
  have hvals : ∀ y, dget t0 y = parsedOfYear y rows := by
    intro y
    unfold groupRows at hg
    have hv := groupLoop_values rows [] t0 hg y
    simpa [dget] using hv
  intro y h1 h2
  constructor
  · rw [dget_finalTable hne h1 h2]
    rw [List.drop_succ_cons, List.drop_zero, List.dropLast_concat]
    exact hvals y
  · intro v hv
    exact exists_row_of_mem_parsed hv

/-- Witness for C5: in a concrete accepted run the interior slice of year
2000's final sequence is exactly its one parsed daily value. -/
theorem C5_interior_witness :
    extractRows eotC5Lines = Except.ok eotC5Rows ∧
    pipeline 2000 2000 eotC5Lines = Except.ok [(2000, [-3, -2, -1])] ∧
    ((dget [(2000, [-3, -2, -1])] 2000).drop 1).dropLast =
      parsedOfYear 2000 eotC5Rows := by
  have hx : extractRows eotC5Lines = Except.ok eotC5Rows := by
    with_unfolding_all rfl
  have hok : pipeline 2000 2000 eotC5Lines = Except.ok [(2000, [-3, -2, -1])] := by
    with_unfolding_all rfl
  exact ⟨hx, hok,
    (C5_interior 2000 2000 eotC5Lines eotC5Rows _ hx hok 2000 (by norm_num)
      (by norm_num)).1⟩

/-- C6: if after grouping a sentinel boundary year (`start-1` or `end+1`) has
zero samples or two or more samples, the run aborts with the consistency
error and produces no table. -/
theorem C6_boundary_assert (s e : Int) (lines rows : List Str) (t0 : Table)
    (hx : extractRows lines = Except.ok rows)
    (hg : groupRows rows = Except.ok t0)
    (hbad : (dget t0 (s - 1)).length ≠ 1 ∨ (dget t0 (e + 1)).length ≠ 1) :
    pipeline s e lines = Except.error Err.consistencyError := by
  unfold pipeline
  rw [hx]
  dsimp only
  unfold buildTable
  rw [hg]
  dsimp only
  rw [checkBoundaries_error hbad]

/-- Witness for C6: a concrete run with no sample for the boundary year 1999;
the run ends in the consistency error. -/
theorem C6_boundary_assert_witness :
    extractRows eotC6Lines = Except.ok eotC6Rows ∧
    groupRows eotC6Rows = Except.ok eotC6Grouped ∧
    (dget eotC6Grouped (2000 - 1)).length = 0 ∧
    pipeline 2000 2000 eotC6Lines = Except.error Err.consistencyError := by
  have hx : extractRows eotC6Lines = Except.ok eotC6Rows := by
    with_unfolding_all rfl
  have hg : groupRows eotC6Rows = Except.ok eotC6Grouped := by
    with_unfolding_all rfl
  have hlen : (dget eotC6Grouped (2000 - 1)).length = 0 := by
    with_unfolding_all rfl
  refine ⟨hx, hg, hlen, ?_⟩
  exact C6_boundary_assert 2000 2000 eotC6Lines eotC6Rows eotC6Grouped hx hg
    (Or.inl (by rw [hlen]; norm_num))

theorem indexOfFirst_eq_none {l : List Str} {x : Str} :
    indexOfFirst l x = none ↔ x ∉ l := by
  induction l with
  | nil => simp [indexOfFirst]
  | cons a rest ih =>
    simp only [indexOfFirst, List.mem_cons]
    by_cases ha : a = x
    · simp [ha]
    · rw [if_neg ha]
      simp only [Option.map_eq_none', ih]
      constructor
      · intro h hmem
        rcases hmem with h1 | h1
        · exact ha h1.symm
        · exact h h1
      · intro h
        exact fun hmem => h (Or.inr hmem)

/-- C7: a response with no line equal to `$$SOE` or no line equal to `$$EOE`
aborts with the format error and produces no table; otherwise the data rows
are exactly the lines strictly between the first `$$SOE` line and the first
`$$EOE` line. -/
theorem C7_sentinels (s e : Int) (lines : List Str) :
    ((soe ∉ lines ∨ eoe ∉ lines) →
      pipeline s e lines = Except.error Err.formatError) ∧
    (∀ i j, indexOfFirst lines soe = some i → indexOfFirst lines eoe = some j →
      ∃ rows, extractRows lines = Except.ok rows ∧
        ∀ k : Nat, rows[k]? = if i + 1 + k < j then lines[i + 1 + k]? else none) := by
  constructor
  · intro hmiss
    unfold pipeline extractRows
    cases hi : indexOfFirst lines soe with
    | none => rfl
    | some i =>
      cases hj : indexOfFirst lines eoe with
      | none => rfl
      | some j =>
        exfalso
        rcases hmiss with hm | hm
        · rw [indexOfFirst_eq_none.mpr hm] at hi
          cases hi
        · rw [indexOfFirst_eq_none.mpr hm] at hj
          cases hj
  · intro i j hi hj
    refine ⟨(lines.drop (i + 1)).take (j - (i + 1)), ?_, ?_⟩
    · unfold extractRows
      rw [hi, hj]
    · intro k
      rw [List.getElem?_take]
      by_cases hk : k < j - (i + 1)
      · rw [if_pos hk, List.getElem?_drop, if_pos (by omega)]
      · rw [if_neg hk, if_neg (by omega)]

/-- Witness for C7: a concrete response where the sentinels sit at positions
1 and 3 and exactly the line between them is the data row, and a concrete
response with no `$$SOE` that aborts with the format error. -/
theorem C7_sentinels_witness :
    indexOfFirst eotC7Good soe = some 1 ∧
    indexOfFirst eotC7Good eoe = some 3 ∧
    extractRows eotC7Good = Except.ok [str "a"] ∧
    (soe ∉ eotC7Bad ∨ eoe ∉ eotC7Bad) ∧
    pipeline 2000 2100 eotC7Bad = Except.error Err.formatError := by
  have hi : indexOfFirst eotC7Good soe = some 1 := by with_unfolding_all rfl
  have hj : indexOfFirst eotC7Good eoe = some 3 := by with_unfolding_all rfl
  have hx : extractRows eotC7Good = Except.ok [str "a"] := by with_unfolding_all rfl
  have hmiss : soe ∉ eotC7Bad := by decide
  obtain ⟨rows, hx2, hchar⟩ := (C7_sentinels 2000 2100 eotC7Good).2 1 3 hi hj
  exact ⟨hi, hj, hx, Or.inl hmiss,
    (C7_sentinels 2000 2100 eotC7Bad).1 (Or.inl hmiss)⟩

/-- C8 counterexample: the data row `2000 11 57` splits into only 3
whitespace tokens, yet the parser accepts it (the first token doubles as the
date and the hour) and a run containing it completes and produces a table, so
a row with fewer than 4 tokens is not always a fatal parse error. -/
theorem C8_counterexample :
    (splitWS eotC8Row).length = 3 ∧
    parseRow eotC8Row = Except.ok (2000, 2385839 / 20) ∧
    pipeline 2000 2000 eotC8Lines = Except.ok [(2000, [-3, 2385839 / 20, -3])] := by
  refine ⟨?_, ?_, ?_⟩
  · with_unfolding_all rfl
  · with_unfolding_all rfl
  · with_unfolding_all rfl

/-- C8 (amended): a data row with fewer than 3 whitespace tokens always
aborts parsing with the parse error (Python raises `IndexError` on `a[-2]` or
`a[-3]`, or a numeric conversion fails), and a run whose data rows contain
such a row produces no table; a 3-token all-numeric row, however, parses
successfully, so only "fewer than 3 tokens" — not "fewer than 4" — is always
fatal. -/
theorem C8_short_row (line : Str) (hshort : (splitWS line).length < 3) :
    parseRow line = Except.error Err.parseError ∧
    ∀ (s e : Int) (lines rows : List Str), line ∈ rows →
      extractRows lines = Except.ok rows →
      ∀ t, pipeline s e lines ≠ Except.ok t := by
  have hparse : parseRow line = Except.error Err.parseError := by
    unfold parseRow
    cases hsplit : splitWS line with
    | nil => rfl
    | cons t0 rest =>
      rw [hsplit] at hshort
      have hlen : rest.length < 2 := by
        simp only [List.length_cons] at hshort
        omega
      have h3 : (pyNeg (t0 :: rest) 3).bind pyFloat = none := by
        have hnone : pyNeg (t0 :: rest) 3 = none := by
          unfold pyNeg
          rw [if_neg]
          simp only [List.length_cons]
          omega
        rw [hnone]
        rfl
      dsimp only
      cases hint : pyInt ((splitOnChar '-' t0).headD []) with
      | none => rfl
      | some year =>
        dsimp only
        cases hf1 : (pyNeg (t0 :: rest) 1).bind pyFloat with
        | none => rfl
        | some sv =>
          cases hf2 : (pyNeg (t0 :: rest) 2).bind pyFloat with
          | none => rfl
          | some mv =>
            rw [h3]
  refine ⟨hparse, ?_⟩
  intro s e lines rows hmem hx t hok
  obtain ⟨rows2, hx2, hb⟩ := pipeline_ok hok
  rw [hx] at hx2
  injection hx2 with hr
  subst hr
  obtain ⟨t0, hg, -, -, -, -⟩ := buildTable_ok hb
  unfold groupRows at hg
  exact groupLoop_error rows [] ⟨line, hmem, Err.parseError, hparse⟩ t0 hg

/-- Witness for C8 (amended): the 1-token row `11` is a fatal parse error and
a run containing it produces no table. -/
theorem C8_short_row_witness :
    (splitWS eotC8WLine).length < 3 ∧
    parseRow eotC8WLine = Except.error Err.parseError ∧
    ∀ t, pipeline 2000 2100 eotC8WLines ≠ Except.ok t := by
  have hshort : (splitWS eotC8WLine).length < 3 := by
    have hlen : (splitWS eotC8WLine).length = 1 := by with_unfolding_all rfl
    omega
  have hall := C8_short_row eotC8WLine hshort
  refine ⟨hshort, hall.1, ?_⟩
  intro t
  refine hall.2 2000 2100 eotC8WLines [eotC8WLine] ?_ ?_ t
  · simp
  · with_unfolding_all rfl

/-- C9 counterexample: the documented conversion applied to apparent solar
time 11:57:11.8441 yields −2.80 minutes after rounding to 2 decimals (the
parser stores −14/5), not −2.52 as the claim states. -/
theorem C9_counterexample :
    parseRow eotC9Line = Except.ok (1999, -14 / 5) ∧
    eotSpecFormula 11 57 (118441 / 10000) = -14 / 5 ∧
    ¬((-14 / 5 : ℚ) = -63 / 25) := by
  refine ⟨?_, ?_, by norm_num⟩
  · with_unfolding_all rfl
  · with_unfolding_all rfl

/-- C9 (amended): the spec's worked example 11:57:11.8441 yields −2.80
(exactly −14/5) under the documented conversion rounded to 2 decimals. -/
theorem C9_example_value :
    parseRow eotC9Line = Except.ok (1999, -14 / 5) ∧
    eotSpecFormula 11 57 (118441 / 10000) = -14 / 5 := by
  constructor
  · with_unfolding_all rfl
  · with_unfolding_all rfl

/-- C10 counterexample: a response the pipeline's validation accepts can carry
an apparent solar time near midnight (23:59:59); the final table then holds
719.98, far outside `[-20, 20]` — the pipeline has no range validation. -/
theorem C10_counterexample :
    pipeline 2000 2000 eotC10Lines = Except.ok [(2000, [-3, 35999 / 50, -3])] ∧
    (35999 / 50 : ℚ) ∈ dget [(2000, [-3, 35999 / 50, -3])] 2000 ∧
    ¬((35999 / 50 : ℚ) ≤ 20) := by
  refine ⟨?_, ?_, by norm_num⟩
  · with_unfolding_all rfl
  · have hd : dget [(2000, [-3, 35999 / 50, -3])] 2000 = [-3, 35999 / 50, -3] := by
      with_unfolding_all rfl
    rw [hd]
    simp

/-- C10 (amended): every value in the final table is the parse result of some
data row of the response, so all values lie in `[-20, 20]` whenever every
parsed row's converted value does; the pipeline itself enforces no range
bound, so an accepted response can produce values outside the range. -/
theorem C10_values_range (s e : Int) (lines rows : List Str) (t : Table)
    (hx : extractRows lines = Except.ok rows)
    (h : pipeline s e lines = Except.ok t)
    (hbound : ∀ line ∈ rows, ∀ y v, parseRow line = Except.ok (y, v) →
      -20 ≤ v ∧ v ≤ 20) :
    ∀ p ∈ t, ∀ v ∈ p.2, -20 ≤ v ∧ v ≤ 20 := by
  obtain ⟨rows2, hx2, hb⟩ := pipeline_ok h
  rw [hx] at hx2
  injection hx2 with hr
  subst hr
  obtain ⟨t0, hg, hs1, hs2, hne, rfl⟩ := buildTable_ok hb
  have hnd : (t0.map Prod.fst).Nodup := by
    unfold groupRows at hg
    exact groupLoop_nodup rows [] t0 hg (by simp)
  have hvals : ∀ y, dget t0 y = parsedOfYear y rows := by
    intro y
    unfold groupRows at hg
    have hv := groupLoop_values rows [] t0 hg y
    simpa [dget] using hv
  intro p hp v hv
  obtain ⟨y, hy⟩ := mem_final_values hnd hs1 hs2 hne hp hv
  rw [hvals y] at hy
  obtain ⟨line, hline, hok⟩ := exists_row_of_mem_parsed hy
  exact hbound line hline y v hok

/-- Witness for C10 (amended): a clean accepted run whose parsed values all
lie in `[-20, 20]`; every value in its final table does too. -/
theorem C10_values_range_witness :
    extractRows eotC10WLines = Except.ok eotC10WRows ∧
    pipeline 2000 2000 eotC10WLines = Except.ok [(2000, [-3, -3, -3])] ∧
    ∀ p ∈ ([(2000, [-3, -3, -3])] : Table), ∀ v ∈ p.2, -20 ≤ v ∧ v ≤ 20 := by
  have hx : extractRows eotC10WLines = Except.ok eotC10WRows := by
    with_unfolding_all rfl
  have hok : pipeline 2000 2000 eotC10WLines = Except.ok [(2000, [-3, -3, -3])] := by
    with_unfolding_all rfl
  have hbound : ∀ line ∈ eotC10WRows, ∀ y v, parseRow line = Except.ok (y, v) →
      -20 ≤ v ∧ v ≤ 20 := by
    have e1 : parseRow (str "1999 11 57 0") = Except.ok (1999, -3) := by
      with_unfolding_all rfl
    have e2 : parseRow (str "2000 11 57 0") = Except.ok (2000, -3) := by
      with_unfolding_all rfl
    have e3 : parseRow (str "2001 11 57 0") = Except.ok (2001, -3) := by
      with_unfolding_all rfl
    intro line hline y v hp
    simp only [eotC10WRows, List.mem_cons, List.not_mem_nil, or_false] at hline
    rcases hline with rfl | rfl | rfl
    · rw [e1] at hp
      simp only [Except.ok.injEq, Prod.mk.injEq] at hp
      obtain ⟨-, rfl⟩ := hp
      norm_num
    · rw [e2] at hp
      simp only [Except.ok.injEq, Prod.mk.injEq] at hp
      obtain ⟨-, rfl⟩ := hp
      norm_num
    · rw [e3] at hp
      simp only [Except.ok.injEq, Prod.mk.injEq] at hp
      obtain ⟨-, rfl⟩ := hp
      norm_num
  exact ⟨hx, hok,
    C10_values_range 2000 2000 eotC10WLines eotC10WRows _ hx hok hbound⟩

